import Mathlib

/-!
Verification of the BackcastPro backtest controller (src/BackcastPro/backtest.py).

This file gives a shallow embedding of the Backtest class: the per-instrument
OHLCV data model, input validation (validate_and_prepare_df), the bar-stepping
state machine (start / step / reset / goto / finalize), the order-submission
helpers (buy / sell) and the trade-event callback plumbing, and proves the
specified properties about them.

Modelling conventions:
- timestamps are natural numbers; a pandas DataFrame is a list of
  (timestamp, row) pairs in index order;
- price cells are Option Rat, with none standing for NaN;
- Python dictionaries keyed by instrument code are association lists in
  insertion order (assignment updates in place or appends);
- exceptions are explicit: fallible operations return an Except value or an
  outcome marker carrying the raised error;
- the broker object (from the _broker module, which is not part of the
  sources verified here) is an abstract state of type B, and its per-bar
  processing broker.next is a parameter that may either return a new broker
  state or raise; the user strategy callback likewise acts on the visible
  data and the broker state and may raise.
-/

namespace BackcastPro

/-- Timestamps of the datetime index, modelled as naturals. -/
abbrev Time := Nat

/-- One row of a per-instrument DataFrame: OHLC plus optional Volume.
A cell holds none when the underlying float is NaN / missing. -/
structure Row where
  openV : Option ℚ
  highV : Option ℚ
  lowV : Option ℚ
  closeV : Option ℚ
  volumeV : Option ℚ
  deriving DecidableEq

/-- A prepared per-instrument DataFrame: rows in index order. -/
abbrev DF := List (Time × Row)

/-- A raw input DataFrame before validation: which of the expected columns
are present, whether the index is a datetime index, and the rows. -/
structure RawDF where
  hasOpen : Bool
  hasHigh : Bool
  hasLow : Bool
  hasClose : Bool
  hasVolume : Bool
  indexIsDatetime : Bool
  rows : List (Time × Row)
  deriving DecidableEq

/-- Python exceptions surfaced by the controller. -/
inductive PyErr where
  | runtimeError
  | valueError (msg : String)
  | typeError (msg : String)
  | other (n : Nat)
  deriving DecidableEq

/-- Warnings issued by validation (warnings.warn calls). -/
inductive Warn where
  | unsortedIndex (code : String)
  | nonDatetimeIndex (code : String)
  deriving DecidableEq

/-- Boolean monotonicity check of an index, mirroring
pandas Index.is_monotonic_increasing (non-strict). -/
def monoTimes : List Time → Bool
  | [] => true
  | [_] => true
  | a :: b :: t => a ≤ b && monoTimes (b :: t)

/-- NaN check over the four OHLC columns, mirroring
df[[Open, High, Low, Close]].isnull().values.any(). -/
def hasNaNOHLC (rows : List (Time × Row)) : Bool :=
  rows.any (fun r =>
    r.2.openV.isNone || r.2.highV.isNone || r.2.lowV.isNone || r.2.closeV.isNone)

/-- Key ordering used to sort a DataFrame by its index (df.sort_index()). -/
def rowLE (a b : Time × Row) : Prop := a.1 ≤ b.1

instance : DecidableRel rowLE := fun a b => Nat.decLe a.1 b.1

instance : IsTotal (Time × Row) rowLE := ⟨fun a b => Nat.le_total a.1 b.1⟩

instance : IsTrans (Time × Row) rowLE := ⟨fun _ _ _ hab hbc => Nat.le_trans hab hbc⟩

/-- Volume-column defaulting of _validate_and_prepare_df: when the Volume
column is absent it is added as a NaN column (df[Volume] = np.nan). -/
def volumize (raw : RawDF) : List (Time × Row) :=
  if raw.hasVolume then raw.rows
  else raw.rows.map (fun r => (r.1, { r.2 with volumeV := none }))

/-- The warning emitted after the checks when the index is not a datetime
index. -/
def dtWarns (raw : RawDF) (code : String) : List Warn :=
  if raw.indexIsDatetime then [] else [Warn.nonDatetimeIndex code]

/-- Embedding of Backtest._validate_and_prepare_df: defaults a missing Volume
column to a NaN column, then raises ValueError on an empty frame, on missing
required columns, and on NaN in the OHLC columns (in that order); a
non-monotonic index is sorted with a warning; a non-datetime index only warns.
Returns the prepared DataFrame together with the emitted warnings in
emission order. -/
def validate_and_prepare_df (raw : RawDF) (code : String) :
    Except PyErr (DF × List Warn) :=
  if (volumize raw).length = 0 then
    .error (.valueError ("OHLC data[" ++ code ++ "] is empty"))
  else if ¬(raw.hasOpen && raw.hasHigh && raw.hasLow && raw.hasClose) then
    -- the Volume column is always present at this point (defaulted above)
    .error (.valueError ("data[" ++ code ++ "] must be a pandas.DataFrame with columns"))
  else if hasNaNOHLC (volumize raw) then
    .error (.valueError "Some OHLC values are missing (NaN)")
  else if monoTimes ((volumize raw).map Prod.fst) then
    .ok (volumize raw, dtWarns raw code)
  else
    .ok (List.insertionSort rowLE (volumize raw),
      Warn.unsortedIndex code :: dtWarns raw code)

/-- Position of the last occurrence of a timestamp in an index, mirroring the
dict comprehension ts maps-to i for i, ts in enumerate(df.index), where a later
duplicate overwrites an earlier one. -/
def lastIdxOf : List Time → Time → Option Nat
  | [], _ => none
  | x :: xs, t =>
    match lastIdxOf xs t with
    | some i => some (i + 1)
    | none => if x = t then some 0 else none

/-- Dictionary lookup in an association list keyed by instrument code. -/
def getSlice (cur : List (String × DF)) (code : String) : Option DF :=
  (cur.find? (fun p => p.1 = code)).map Prod.snd

/-- Dictionary assignment: update the entry in place if the key is present,
otherwise append (Python dict insertion-order semantics). -/
def setSlice (cur : List (String × DF)) (code : String) (df : DF) :
    List (String × DF) :=
  if cur.any (fun p => p.1 = code) then
    cur.map (fun p => if p.1 = code then (code, df) else p)
  else cur ++ [(code, df)]

/-- The visibility-update loop of Backtest.step: for each instrument whose
index contains the current timestamp, replace its visible slice with
df.iloc[:pos + 1]; instruments without a bar at this timestamp are left
untouched. -/
def updateVisible (data : List (String × DF)) (cur : List (String × DF))
    (t : Time) : List (String × DF) :=
  match data with
  | [] => cur
  | (c, df) :: rest =>
    match lastIdxOf (df.map Prod.fst) t with
    | some pos => updateVisible rest (setSlice cur c (df.take (pos + 1))) t
    | none => updateVisible rest cur t

/-- The state of one Backtest object. B is the abstract broker state,
R the statistics-report type produced by finalize. -/
structure BtState (B R : Type) where
  data : List (String × DF)
  index : List Time
  stepIndex : Nat
  isStarted : Bool
  isFinished : Bool
  currentData : List (String × DF)
  broker : B
  results : Option R
  deriving DecidableEq

/-- A user strategy callback: sees the visible data and the broker state
(through the buy/sell/introspection API) and either returns the mutated
broker state or raises. -/
abbrev Strat (B : Type) := List (String × DF) → B → Except PyErr B

/-- The broker per-bar processing broker.next, given the broker state, the
current timestamp and the visible data; it may raise. -/
abbrev BrokerNext (B : Type) := B → Time → List (String × DF) → Except PyErr B

/-- Result of one call to Backtest.step: either a normal return value or a
propagated exception. -/
inductive StepOutcome where
  | ret (b : Bool)
  | exn (e : PyErr)
  deriving DecidableEq

/-- The visible data computed by step at the current cursor, before the
strategy callback runs. -/
def visibleDuring {B R : Type} (st : BtState B R) : List (String × DF) :=
  updateVisible st.data st.currentData (st.index.getD st.stepIndex 0)

/-- Embedding of Backtest.step: RuntimeError if not started; False if already
finished; marks finished when the time axis is exhausted; otherwise updates
the visible slices, invokes the strategy (whose exception propagates), runs
broker.next (whose exception is swallowed: the run is marked finished and
False is returned), then advances the cursor. -/
def step {B R : Type} (bn : BrokerNext B) (strat : Option (Strat B))
    (st : BtState B R) : BtState B R × StepOutcome :=
  if st.isStarted = false then (st, .exn .runtimeError)
  else if st.isFinished = true then (st, .ret false)
  else if st.index.length ≤ st.stepIndex then
    ({ st with isFinished := true }, .ret false)
  else
    let t := st.index.getD st.stepIndex 0
    let cur := visibleDuring st
    let st1 := { st with currentData := cur }
    match strat with
    | some f =>
      match f cur st1.broker with
      | .error e => (st1, .exn e)
      | .ok b0 =>
        let st2 := { st1 with broker := b0 }
        match bn st2.broker t cur with
        | .error _ => ({ st2 with isFinished := true }, .ret false)
        | .ok b1 =>
          let fin := decide (st2.index.length ≤ st2.stepIndex + 1)
          ({ st2 with broker := b1, stepIndex := st2.stepIndex + 1, isFinished := fin },
            .ret (!fin))
    | none =>
      match bn st1.broker t cur with
      | .error _ => ({ st1 with isFinished := true }, .ret false)
      | .ok b1 =>
        let fin := decide (st1.index.length ≤ st1.stepIndex + 1)
        ({ st1 with broker := b1, stepIndex := st1.stepIndex + 1, isFinished := fin },
          .ret (!fin))

/-- The initial visible slices set by Backtest.reset: the first row of every
non-empty instrument DataFrame (df.iloc[:1]). -/
def firstRows : List (String × DF) → List (String × DF)
  | [] => []
  | (c, df) :: rest =>
    if 0 < df.length then (c, df.take 1) :: firstRows rest else firstRows rest

/-- Embedding of Backtest.reset: fresh broker from the factory, cursor back
to 0, finished flag and cached results cleared, visible slices seeded with
the first row of each instrument. -/
def reset {B R : Type} (b0 : B) (st : BtState B R) : BtState B R :=
  { data := st.data
    index := st.index
    stepIndex := 0
    isStarted := st.isStarted
    isFinished := false
    currentData := firstRows st.data
    broker := b0
    results := none }

/-- The time axis built by set_data: the sorted union (deduplicated) of all
per-instrument timestamps. -/
def buildIndex (data : List (String × DF)) : List Time :=
  List.insertionSort (· ≤ ·) ((data.map (fun p => p.2.map Prod.fst)).flatten.dedup)

/-- Embedding of Backtest.start (as reached through set_data): fresh broker,
cursor 0, started, not finished, empty visible-data dictionary, no cached
results. -/
def start {B R : Type} (b0 : B) (data : List (String × DF)) : BtState B R :=
  { data := data
    index := buildIndex data
    stepIndex := 0
    isStarted := true
    isFinished := false
    currentData := []
    broker := b0
    results := none }

/-- The while-loop of Backtest.goto, with explicit fuel: while the cursor is
short of the target and the run is not finished, call step; a propagated
strategy exception aborts the loop and is reported. -/
def gotoLoop {B R : Type} (bn : BrokerNext B) (f : Option (Strat B))
    (target : Nat) : Nat → BtState B R → BtState B R × Option PyErr
  | 0, st => (st, none)
  | fuel + 1, st =>
    if st.stepIndex < target ∧ st.isFinished = false then
      match step bn f st with
      | (st1, .exn e) => (st1, some e)
      | (st1, .ret _) => gotoLoop bn f target fuel st1
    else (st, none)

/-- Embedding of Backtest.goto: clamp the target to [1, len(index)], reset if
the clamped target lies strictly behind the cursor, then loop forward.
f is the strategy effective during the jump (the optional override argument
if given, else the stored strategy); the fuel bound target + 2 dominates the
number of loop iterations. -/
def goto {B R : Type} (bn : BrokerNext B) (f : Option (Strat B)) (b0 : B)
    (target0 : Nat) (st : BtState B R) : BtState B R × Option PyErr :=
  gotoLoop bn f (max 1 (min target0 st.index.length))
    (max 1 (min target0 st.index.length) + 2)
    (if max 1 (min target0 st.index.length) < st.stepIndex then reset b0 st else st)

/-- Iterated stepping from a state (the states reached by calling step n
times, as the run() driver does). -/
def stepN {B R : Type} (bn : BrokerNext B) (f : Option (Strat B)) :
    Nat → BtState B R → BtState B R
  | 0, st => st
  | n + 1, st => stepN bn f n (step bn f st).1

/-- Embedding of Backtest.finalize. The cached-result check and the
started-state check are taken from the source; the body after them —
closing open trades through the broker and running compute_stats — lives in
the _broker and _stats modules, which are not among the sources verified
here, so it is abstracted as the parameter compute, which produces the final
broker state and the statistics report from the current state. -/
def finalize {B R : Type} (compute : BtState B R → B × R) (st : BtState B R) :
    BtState B R × Except PyErr R :=
  match st.results with
  | some r => (st, .ok r)
  | none =>
    if st.isStarted = false then (st, .error .runtimeError)
    else
      let br := compute st
      ({ st with broker := br.1, results := some br.2 }, .ok br.2)

/-- A broker whose per-bar processing never raises. -/
def BnTotal {B : Type} (bn : BrokerNext B) : Prop :=
  ∀ b t d, ∃ b1, bn b t d = .ok b1

/-- The look-ahead-safety bound on the visible slices: every visible row's
timestamp is bounded by some time-axis entry at or before the cursor. -/
def VisBound {B R : Type} (st : BtState B R) : Prop :=
  ∀ code slice r, getSlice st.currentData code = some slice → r ∈ slice →
    ∃ j, j ≤ st.stepIndex ∧ r.1 ≤ st.index.getD j 0

/-- Every instrument series in the data dictionary has a monotonically
non-decreasing index (the state validation establishes after set_data). -/
def SortedData (data : List (String × DF)) : Prop :=
  ∀ code df, (code, df) ∈ data → List.Sorted (· ≤ ·) (df.map Prod.fst)

/-- The default order size used when the size argument is omitted:
1 - sys.float_info.epsilon, the all-available-capital sentinel. -/
def sizeDefault : ℚ := 1 - (1 : ℚ) / 2 ^ 52

/-- The argument tuple forwarded to broker.new_order by buy/sell. -/
structure OrderReq where
  code : String
  size : ℚ
  limit : Option ℚ
  stop : Option ℚ
  sl : Option ℚ
  tp : Option ℚ
  tag : Option String
  deriving DecidableEq

/-- Resolution of the optional code argument shared by buy and sell: an
explicit code is used as given; an omitted code defaults to the sole
instrument when exactly one is present and raises ValueError otherwise. -/
def resolveCode (data : List (String × DF)) (code? : Option String) :
    Except PyErr String :=
  match code? with
  | some c => .ok c
  | none =>
    if data.length = 1 then
      match data.head? with
      | some p => .ok p.1
      | none => .error (.valueError "no instruments")
    else .error (.valueError "codeRequiredWithMultipleInstruments")

/-- Embedding of Backtest.buy: RuntimeError when not started, code
resolution, size defaulting, then the forwarded broker.new_order arguments
(positive size). -/
def buy {B R : Type} (st : BtState B R) (code? : Option String)
    (size? : Option ℚ) (limit stop sl tp : Option ℚ) (tag : Option String) :
    Except PyErr OrderReq :=
  if st.isStarted = false then .error .runtimeError
  else
    match resolveCode st.data code? with
    | .error e => .error e
    | .ok c =>
      let sz := size?.getD sizeDefault
      .ok { code := c, size := sz, limit := limit, stop := stop, sl := sl,
            tp := tp, tag := tag }

/-- Embedding of Backtest.sell: identical validation and defaulting, but the
size forwarded to broker.new_order is negated. -/
def sell {B R : Type} (st : BtState B R) (code? : Option String)
    (size? : Option ℚ) (limit stop sl tp : Option ℚ) (tag : Option String) :
    Except PyErr OrderReq :=
  if st.isStarted = false then .error .runtimeError
  else
    match resolveCode st.data code? with
    | .error e => .error e
    | .ok c =>
      let sz := size?.getD sizeDefault
      .ok { code := c, size := -sz, limit := limit, stop := stop, sl := sl,
            tp := tp, tag := tag }

/-- Trade-event type delivered to trade callbacks. -/
inductive EventType where
  | BUY
  | SELL
  deriving DecidableEq

/-- A Trade object as seen by a trade callback (code and signed size are the
parts event dispatch depends on). -/
structure TradeObj where
  code : String
  size : ℚ
  deriving DecidableEq

/-- Callbacks are identified by registration tokens; a call record is the
callback identity together with the event it received. -/
abbrev CallRec := Nat × EventType × TradeObj

/-- Embedding of Backtest.add_trade_callback: appends to the callback list,
so later registrations fire after earlier ones. -/
def add_trade_callback (cbs : List Nat) (cb : Nat) : List Nat := cbs ++ [cb]

/-- Embedding of the emit_all closure installed by _setup_trade_callbacks:
calls every registered callback in list (registration) order with the same
event, producing the synchronous call trace. -/
def emitAll (cbs : List Nat) (e : EventType) (t : TradeObj) : List CallRec :=
  cbs.map (fun cb => (cb, e, t))

/-- What happens to an order fill inside one broker.next pass, as far as
event dispatch is concerned: it either opens a new Trade or partially or
fully closes an existing one. -/
inductive FillKind where
  | opening
  | closePart
  | closeFull
  deriving DecidableEq

/-- One order fill processed by broker.next. -/
structure Fill where
  kind : FillKind
  trade : TradeObj
  deriving DecidableEq

/-- Modelled from the spec: the _broker module is not among the sources
verified here; per the spec, broker.next invokes the installed on_trade_event
hook synchronously once for each fill that opens a new Trade — with event
BUY for a positive size and SELL otherwise — and not for partial or full
closes. This function gives the call trace of one bar's fill pass. -/
def brokerFillPass (onEvent : EventType → TradeObj → List CallRec)
    (fills : List Fill) : List CallRec :=
  match fills with
  | [] => []
  | f :: rest =>
    match f.kind with
    | .opening =>
      onEvent (if 0 < f.trade.size then .BUY else .SELL) f.trade
        ++ brokerFillPass onEvent rest
    | .closePart => brokerFillPass onEvent rest
    | .closeFull => brokerFillPass onEvent rest

/-! ### Helper lemmas about step and the goto loop -/

/-- Branch equation: stepping an unstarted backtest. -/
theorem step_not_started {B R : Type} (bn : BrokerNext B) (f : Option (Strat B))
    (st : BtState B R) (h1 : st.isStarted = false) :
    step bn f st = (st, .exn .runtimeError) := by
  unfold step
  simp [h1]

/-- Branch equation: stepping a finished backtest. -/
theorem step_finished {B R : Type} (bn : BrokerNext B) (f : Option (Strat B))
    (st : BtState B R) (h1 : st.isStarted = true) (h2 : st.isFinished = true) :
    step bn f st = (st, .ret false) := by
  unfold step
  simp [h1, h2]

/-- Branch equation: stepping with the time axis exhausted. -/
theorem step_exhausted {B R : Type} (bn : BrokerNext B) (f : Option (Strat B))
    (st : BtState B R) (h1 : st.isStarted = true) (h2 : st.isFinished = false)
    (h3 : st.index.length ≤ st.stepIndex) :
    step bn f st = ({ st with isFinished := true }, .ret false) := by
  unfold step
  simp [h1, h2, h3]

/-- Branch equation: the strategy raises. -/
theorem step_strat_err {B R : Type} (bn : BrokerNext B) (g : Strat B)
    (st : BtState B R) (e : PyErr) (h1 : st.isStarted = true)
    (h2 : st.isFinished = false) (h3 : st.stepIndex < st.index.length)
    (hg : g (visibleDuring st) st.broker = .error e) :
    step bn (some g) st = ({ st with currentData := visibleDuring st }, .exn e) := by
  unfold step
  simp [h1, h2, Nat.not_le.mpr h3, hg]

/-- Branch equation: the strategy succeeds and broker.next raises. -/
theorem step_strat_bn_err {B R : Type} (bn : BrokerNext B) (g : Strat B)
    (st : BtState B R) (b0 : B) (e : PyErr) (h1 : st.isStarted = true)
    (h2 : st.isFinished = false) (h3 : st.stepIndex < st.index.length)
    (hg : g (visibleDuring st) st.broker = .ok b0)
    (hbn : bn b0 (st.index.getD st.stepIndex 0) (visibleDuring st) = .error e) :
    step bn (some g) st =
      ({ st with currentData := visibleDuring st, broker := b0, isFinished := true },
        .ret false) := by
  have hbn2 : bn b0 (st.index[st.stepIndex]?.getD 0) (visibleDuring st) = .error e := by
    rw [← List.getD_eq_getElem?_getD]; exact hbn
  unfold step
  simp [h1, h2, Nat.not_le.mpr h3, hg, hbn2]

/-- Branch equation: the strategy succeeds and broker.next succeeds. -/
theorem step_strat_bn_ok {B R : Type} (bn : BrokerNext B) (g : Strat B)
    (st : BtState B R) (b0 b1 : B) (h1 : st.isStarted = true)
    (h2 : st.isFinished = false) (h3 : st.stepIndex < st.index.length)
    (hg : g (visibleDuring st) st.broker = .ok b0)
    (hbn : bn b0 (st.index.getD st.stepIndex 0) (visibleDuring st) = .ok b1) :
    step bn (some g) st =
      ({ st with
          currentData := visibleDuring st
          broker := b1
          stepIndex := st.stepIndex + 1
          isFinished := decide (st.index.length ≤ st.stepIndex + 1) },
        .ret (!decide (st.index.length ≤ st.stepIndex + 1))) := by
  have hbn2 : bn b0 (st.index[st.stepIndex]?.getD 0) (visibleDuring st) = .ok b1 := by
    rw [← List.getD_eq_getElem?_getD]; exact hbn
  unfold step
  simp [h1, h2, Nat.not_le.mpr h3, hg, hbn2]

/-- Branch equation: no strategy installed and broker.next raises. -/
theorem step_none_bn_err {B R : Type} (bn : BrokerNext B) (st : BtState B R)
    (e : PyErr) (h1 : st.isStarted = true) (h2 : st.isFinished = false)
    (h3 : st.stepIndex < st.index.length)
    (hbn : bn st.broker (st.index.getD st.stepIndex 0) (visibleDuring st) = .error e) :
    step (R := R) bn none st =
      ({ st with currentData := visibleDuring st, isFinished := true }, .ret false) := by
  have hbn2 : bn st.broker (st.index[st.stepIndex]?.getD 0) (visibleDuring st) = .error e := by
    rw [← List.getD_eq_getElem?_getD]; exact hbn
  unfold step
  simp [h1, h2, Nat.not_le.mpr h3, hbn2]

/-- Branch equation: no strategy installed and broker.next succeeds. -/
theorem step_none_bn_ok {B R : Type} (bn : BrokerNext B) (st : BtState B R)
    (b1 : B) (h1 : st.isStarted = true) (h2 : st.isFinished = false)
    (h3 : st.stepIndex < st.index.length)
    (hbn : bn st.broker (st.index.getD st.stepIndex 0) (visibleDuring st) = .ok b1) :
    step (R := R) bn none st =
      ({ st with
          currentData := visibleDuring st
          broker := b1
          stepIndex := st.stepIndex + 1
          isFinished := decide (st.index.length ≤ st.stepIndex + 1) },
        .ret (!decide (st.index.length ≤ st.stepIndex + 1))) := by
  have hbn2 : bn st.broker (st.index[st.stepIndex]?.getD 0) (visibleDuring st) = .ok b1 := by
    rw [← List.getD_eq_getElem?_getD]; exact hbn
  unfold step
  simp [h1, h2, Nat.not_le.mpr h3, hbn2]

/-- Exhaustive case analysis on one call to step, phrased through the branch
equations. -/
theorem step_cases {B R : Type} (bn : BrokerNext B) (f : Option (Strat B))
    (st : BtState B R) :
    (st.isStarted = false ∧ step bn f st = (st, .exn .runtimeError)) ∨
    (st.isStarted = true ∧ st.isFinished = true ∧ step bn f st = (st, .ret false)) ∨
    (st.isStarted = true ∧ st.isFinished = false ∧
      st.index.length ≤ st.stepIndex ∧
      step bn f st = ({ st with isFinished := true }, .ret false)) ∨
    (st.isStarted = true ∧ st.isFinished = false ∧
      st.stepIndex < st.index.length ∧
      ((∃ g e, f = some g ∧ g (visibleDuring st) st.broker = .error e ∧
        step bn f st = ({ st with currentData := visibleDuring st }, .exn e)) ∨
      (∃ b0 e, step bn f st =
          ({ st with
              currentData := visibleDuring st
              broker := b0
              isFinished := true }, .ret false) ∧
        bn b0 (st.index.getD st.stepIndex 0) (visibleDuring st) = .error e) ∨
      (∃ b0 b1, step bn f st =
          ({ st with
              currentData := visibleDuring st
              broker := b1
              stepIndex := st.stepIndex + 1
              isFinished := decide (st.index.length ≤ st.stepIndex + 1) },
            .ret (!decide (st.index.length ≤ st.stepIndex + 1))) ∧
        bn b0 (st.index.getD st.stepIndex 0) (visibleDuring st) = .ok b1))) := by
  rcases Bool.eq_false_or_eq_true st.isStarted with h1 | h1
  case inr => exact Or.inl ⟨h1, step_not_started bn f st h1⟩
  case inl =>
    rcases Bool.eq_false_or_eq_true st.isFinished with h2 | h2
    case inl => exact Or.inr (Or.inl ⟨h1, h2, step_finished bn f st h1 h2⟩)
    by_cases h3 : st.index.length ≤ st.stepIndex
    · exact Or.inr (Or.inr (Or.inl ⟨h1, h2, h3, step_exhausted bn f st h1 h2 h3⟩))
    · have h3' : st.stepIndex < st.index.length := Nat.lt_of_not_le h3
      refine Or.inr (Or.inr (Or.inr ⟨h1, h2, h3', ?_⟩))
      cases f with
      | none =>
        cases hbn : bn st.broker (st.index.getD st.stepIndex 0) (visibleDuring st) with
        | error e =>
          refine Or.inr (Or.inl ⟨st.broker, e, ?_, hbn⟩)
          have := step_none_bn_err bn st e h1 h2 h3' hbn
          simpa using this
        | ok b1 =>
          exact Or.inr (Or.inr ⟨st.broker, b1, step_none_bn_ok bn st b1 h1 h2 h3' hbn, hbn⟩)
      | some g =>
        cases hg : g (visibleDuring st) st.broker with
        | error e =>
          exact Or.inl ⟨g, e, rfl, hg, step_strat_err bn g st e h1 h2 h3' hg⟩
        | ok b0 =>
          cases hbn : bn b0 (st.index.getD st.stepIndex 0) (visibleDuring st) with
          | error e =>
            exact Or.inr (Or.inl ⟨b0, e,
              step_strat_bn_err bn g st b0 e h1 h2 h3' hg hbn, hbn⟩)
          | ok b1 =>
            exact Or.inr (Or.inr ⟨b0, b1,
              step_strat_bn_ok bn g st b0 b1 h1 h2 h3' hg hbn, hbn⟩)

/-- step never changes the data dictionary, the time axis, the started flag
or the cached results. -/
theorem step_preserves {B R : Type} (bn : BrokerNext B) (f : Option (Strat B))
    (st : BtState B R) :
    (step bn f st).1.data = st.data ∧ (step bn f st).1.index = st.index ∧
    (step bn f st).1.isStarted = st.isStarted ∧
    (step bn f st).1.results = st.results := by
  rcases step_cases bn f st with ⟨_, h⟩ | ⟨_, _, h⟩ | ⟨_, _, _, h⟩ |
    ⟨_, _, _, ⟨g, e, _, _, h⟩ | ⟨b0, e, h, _⟩ | ⟨b0, b1, h, _⟩⟩ <;> simp [h]

/-- One step either advances the cursor by exactly one or leaves the cursor
in place with the finished flag set, whenever it returns normally. -/
theorem step_ret_cases {B R : Type} (bn : BrokerNext B) (f : Option (Strat B))
    (st st1 : BtState B R) (b : Bool) (h : step bn f st = (st1, .ret b)) :
    st1.stepIndex = st.stepIndex + 1 ∨
      (st1.stepIndex = st.stepIndex ∧ st1.isFinished = true) := by
  rcases step_cases bn f st with ⟨_, heq⟩ | ⟨_, h2, heq⟩ | ⟨_, _, _, heq⟩ |
    ⟨_, _, _, ⟨g, e, _, _, heq⟩ | ⟨b0, e, heq, _⟩ | ⟨b0, b1, heq, _⟩⟩ <;>
    rw [heq] at h
  · cases h
  · injection h with ha _; subst ha; exact Or.inr ⟨rfl, h2⟩
  · injection h with ha _; subst ha; exact Or.inr ⟨rfl, rfl⟩
  · cases h
  · injection h with ha _; subst ha; exact Or.inr ⟨rfl, rfl⟩
  · injection h with ha _; subst ha; exact Or.inl rfl

/-- The goto loop is a no-op when the cursor has reached the target or the
run is finished (for any fuel). -/
theorem gotoLoop_exit {B R : Type} (bn : BrokerNext B) (f : Option (Strat B))
    (target fuel : Nat) (st : BtState B R)
    (h : ¬(st.stepIndex < target ∧ st.isFinished = false)) :
    gotoLoop bn f target fuel st = (st, none) := by
  cases fuel with
  | zero => rfl
  | succ fuel => simp [gotoLoop, h]

/-- The goto loop never changes the data dictionary, the time axis or the
started flag. -/
theorem gotoLoop_preserves {B R : Type} (bn : BrokerNext B)
    (f : Option (Strat B)) (target : Nat) :
    ∀ fuel (st : BtState B R),
      (gotoLoop bn f target fuel st).1.data = st.data ∧
      (gotoLoop bn f target fuel st).1.index = st.index ∧
      (gotoLoop bn f target fuel st).1.isStarted = st.isStarted := by
  intro fuel
  induction fuel with
  | zero => intro st; exact ⟨rfl, rfl, rfl⟩
  | succ fuel ih =>
    intro st
    by_cases hc : st.stepIndex < target ∧ st.isFinished = false
    · have hpres := step_preserves bn f st
      rcases hstep : step bn f st with ⟨st2, out⟩
      rw [hstep] at hpres
      cases out with
      | exn e => simp [gotoLoop, hc, hstep]; exact ⟨hpres.1, hpres.2.1, hpres.2.2.1⟩
      | ret b =>
        have := ih st2
        simp only [gotoLoop, hc, if_true, hstep]
        exact ⟨this.1.trans hpres.1, this.2.1.trans hpres.2.1,
          this.2.2.trans hpres.2.2.1⟩
    · simp [gotoLoop_exit bn f target _ st hc]

/-- With a never-raising broker and no strategy, the goto loop drives the
cursor exactly to the target (given enough fuel and a target within the
axis). -/
theorem gotoLoop_reach {B R : Type} {bn : BrokerNext B} (hbn : BnTotal bn)
    (target : Nat) :
    ∀ fuel (st : BtState B R), st.isStarted = true → st.stepIndex ≤ target →
      target ≤ st.index.length →
      (st.stepIndex = target ∨ st.isFinished = false) →
      target - st.stepIndex + 1 ≤ fuel →
      (gotoLoop (R := R) bn none target fuel st).2 = none ∧
      (gotoLoop (R := R) bn none target fuel st).1.stepIndex = target := by
  intro fuel
  induction fuel with
  | zero => intro st _ _ _ _ hfuel; omega
  | succ fuel ih =>
    intro st hS hle hlen hdisj hfuel
    by_cases hc : st.stepIndex < target ∧ st.isFinished = false
    · obtain ⟨b1, hb1⟩ := hbn st.broker (st.index.getD st.stepIndex 0) (visibleDuring st)
      have hI : st.stepIndex < st.index.length := by omega
      have hstep := step_none_bn_ok (R := R) bn st b1 hS hc.2 hI hb1
      simp only [gotoLoop, hc, if_true, hstep]
      apply ih
      · simp [hS]
      · simp; omega
      · simpa using hlen
      · have hlt := hc.1
        by_cases heq : st.stepIndex + 1 = target
        · exact Or.inl (by simp [heq])
        · refine Or.inr ?_
          have hx : ¬(st.index.length ≤ st.stepIndex + 1) := by omega
          simp [hx]
      · simp; omega
    · have hex := gotoLoop_exit bn none target (fuel + 1) st hc
      rw [hex]
      rcases hdisj with h | h
      · exact ⟨rfl, h⟩
      · have hnl : ¬ st.stepIndex < target := fun hlt => hc ⟨hlt, h⟩
        refine ⟨rfl, ?_⟩
        show st.stepIndex = target
        omega

/-- Whenever the goto loop returns without a propagated exception and starts
at or before the target, it ends at or before the target, and either exactly
at the target or finished. -/
theorem gotoLoop_post {B R : Type} (bn : BrokerNext B) (f : Option (Strat B))
    (target : Nat) :
    ∀ fuel (st st1 : BtState B R), gotoLoop bn f target fuel st = (st1, none) →
      st.stepIndex ≤ target → target - st.stepIndex + 2 ≤ fuel →
      st1.stepIndex ≤ target ∧ (st1.stepIndex = target ∨ st1.isFinished = true) := by
  intro fuel
  induction fuel with
  | zero => intro st st1 _ _ hfuel; omega
  | succ fuel ih =>
    intro st st1 h hle hfuel
    by_cases hc : st.stepIndex < target ∧ st.isFinished = false
    · rcases hstep : step bn f st with ⟨st2, out⟩
      cases out with
      | exn e => simp [gotoLoop, hc, hstep] at h
      | ret b =>
        simp only [gotoLoop, hc, if_true, hstep] at h
        rcases step_ret_cases bn f st st2 b hstep with hadv | ⟨hsame, hfin⟩
        · exact ih st2 st1 h (by omega) (by omega)
        · have hex := gotoLoop_exit bn f target fuel st2 (by simp [hfin])
          rw [hex] at h
          injection h with h1 _
          subst h1
          exact ⟨by omega, Or.inr hfin⟩
    · have hex := gotoLoop_exit bn f target (fuel + 1) st hc
      rw [hex] at h
      injection h with h1 _
      subst h1
      constructor
      · exact hle
      · rcases Decidable.not_and_iff_or_not.mp hc with h2 | h2
        · exact Or.inl (by omega)
        · exact Or.inr (by simpa using h2)

/-! ### Helper lemmas about the visibility update -/

/-- If the index-position map hits, the timestamp occurs in the index. -/
theorem lastIdxOf_mem : ∀ (ts : List Time) (t : Time) (i : Nat),
    lastIdxOf ts t = some i → t ∈ ts := by
  intro ts
  induction ts with
  | nil => intro t i h; cases h
  | cons x xs ih =>
    intro t i h
    simp only [lastIdxOf] at h
    cases hrec : lastIdxOf xs t with
    | some j => exact List.mem_cons_of_mem x (ih t j hrec)
    | none =>
      rw [hrec] at h
      by_cases hx : x = t
      · exact hx ▸ List.mem_cons_self x xs
      · rw [if_neg hx] at h; cases h

/-- If the index-position map misses, the timestamp does not occur. -/
theorem lastIdxOf_none : ∀ (ts : List Time) (t : Time),
    lastIdxOf ts t = none → t ∉ ts := by
  intro ts
  induction ts with
  | nil => intro t _ h; cases h
  | cons x xs ih =>
    intro t h
    simp only [lastIdxOf] at h
    cases hrec : lastIdxOf xs t with
    | some j => rw [hrec] at h; cases h
    | none =>
      rw [hrec] at h
      by_cases hx : x = t
      · rw [if_pos hx] at h; cases h
      · intro hmem
        rcases List.mem_cons.mp hmem with hh | hh
        · exact hx hh.symm
        · exact ih t hrec hh

/-- On a sorted index, slicing up to one past the last occurrence of the
current timestamp is exactly filtering the rows with timestamp at most the
current timestamp (iloc up to pos + 1 never exposes later rows). -/
theorem take_eq_filter_le : ∀ (rows : DF) (t : Time) (pos : Nat),
    List.Sorted (· ≤ ·) (rows.map Prod.fst) →
    lastIdxOf (rows.map Prod.fst) t = some pos →
    rows.take (pos + 1) = rows.filter (fun r => decide (r.1 ≤ t)) := by
  intro rows
  induction rows with
  | nil => intro t pos _ h; cases h
  | cons p rest ih =>
    intro t pos hsorted hlast
    rw [List.map_cons] at hsorted hlast
    have hs2 : List.Sorted (· ≤ ·) (rest.map Prod.fst) :=
      (List.pairwise_cons.mp hsorted).2
    have hhead : ∀ y ∈ rest.map Prod.fst, p.1 ≤ y :=
      (List.pairwise_cons.mp hsorted).1
    simp only [lastIdxOf] at hlast
    cases hrec : lastIdxOf (rest.map Prod.fst) t with
    | some i =>
      rw [hrec] at hlast
      injection hlast with hpos
      subst hpos
      have hmem : t ∈ rest.map Prod.fst := lastIdxOf_mem _ t i hrec
      have hp : p.1 ≤ t := hhead t hmem
      have hres := ih t i hs2 hrec
      rw [List.take_succ_cons, List.filter_cons]
      simp [hp, hres]
    | none =>
      rw [hrec] at hlast
      by_cases hx : p.1 = t
      · rw [if_pos hx] at hlast
        injection hlast with hpos
        subst hpos
        have hnot : t ∉ rest.map Prod.fst := lastIdxOf_none _ t hrec
        have hnil : rest.filter (fun r => decide (r.1 ≤ t)) = [] := by
          rw [List.filter_eq_nil_iff]
          intro r hr hcontra
          have h1 : t ≤ r.1 := hx ▸ hhead r.1 (List.mem_map_of_mem Prod.fst hr)
          have h2 : r.1 ≠ t := fun hc => hnot (hc ▸ List.mem_map_of_mem Prod.fst hr)
          have h3 : r.1 ≤ t := by simpa using hcontra
          exact h2 (le_antisymm h3 h1)
        rw [List.take_succ_cons, List.take_zero, List.filter_cons]
        simp [hx, hnil]
      · rw [if_neg hx] at hlast; cases hlast

/-- Bound extracted from the slicing equation: every row in the slice has a
timestamp at most the current timestamp. -/
theorem take_le_bound (rows : DF) (t : Time) (pos : Nat)
    (hs : List.Sorted (· ≤ ·) (rows.map Prod.fst))
    (hlast : lastIdxOf (rows.map Prod.fst) t = some pos) :
    ∀ r ∈ rows.take (pos + 1), r.1 ≤ t := by
  intro r hr
  rw [take_eq_filter_le rows t pos hs hlast] at hr
  have := List.of_mem_filter hr
  simpa using this

/-- Dictionary assignment then lookup at the same key. -/
theorem getSlice_setSlice_self : ∀ (cur : List (String × DF)) (c : String) (df : DF),
    getSlice (setSlice cur c df) c = some df := by
  have hmap : ∀ (cur : List (String × DF)) (c : String) (df : DF),
      getSlice (cur.map (fun p => if p.1 = c then (c, df) else p)) c =
        if cur.any (fun p => decide (p.1 = c)) then some df else none := by
    intro cur c df
    induction cur with
    | nil => rfl
    | cons p ps ih =>
      by_cases hp : p.1 = c
      · simp only [List.map_cons, if_pos hp, List.any_cons]
        unfold getSlice
        rw [List.find?_cons_of_pos _ (by simp)]
        simp [hp]
      · simp only [List.map_cons, if_neg hp, List.any_cons]
        unfold getSlice
        rw [List.find?_cons_of_neg _ (by simp [hp])]
        have hdp : (decide (p.1 = c)) = false := by simp [hp]
        simp only [hdp, Bool.false_or]
        exact ih
  have happ : ∀ (cur : List (String × DF)) (c : String) (df : DF),
      cur.any (fun p => decide (p.1 = c)) = false →
      getSlice (cur ++ [(c, df)]) c = some df := by
    intro cur c df hany
    induction cur with
    | nil =>
      unfold getSlice
      rw [List.nil_append, List.find?_cons_of_pos _ (by simp)]
      rfl
    | cons p ps ih =>
      rw [List.any_cons] at hany
      have hp : ¬(p.1 = c) := by
        intro hc
        rw [hc] at hany
        simp at hany
      have hps : ps.any (fun p => decide (p.1 = c)) = false := by
        rcases Bool.or_eq_false_iff.mp hany with ⟨_, h⟩
        exact h
      rw [List.cons_append]
      unfold getSlice
      rw [List.find?_cons_of_neg _ (by simp [hp])]
      exact ih hps
  intro cur c df
  unfold setSlice
  by_cases hany : cur.any (fun p => decide (p.1 = c)) = true
  · rw [if_pos hany, hmap, if_pos hany]
  · have hany2 : cur.any (fun p => decide (p.1 = c)) = false :=
      Bool.eq_false_iff.mpr hany
    rw [if_neg hany]
    exact happ cur c df hany2

/-- Dictionary assignment does not affect lookups at other keys. -/
theorem getSlice_setSlice_ne : ∀ (cur : List (String × DF)) (c code : String)
    (df : DF), c ≠ code → getSlice (setSlice cur c df) code = getSlice cur code := by
  intro cur c code df hne
  have hmap : ∀ ps : List (String × DF),
      getSlice (ps.map (fun p => if p.1 = c then (c, df) else p)) code =
        getSlice ps code := by
    intro ps
    induction ps with
    | nil => rfl
    | cons p ps ih =>
      rw [List.map_cons]
      by_cases hp : p.1 = c
      · rw [if_pos hp]
        unfold getSlice
        rw [List.find?_cons_of_neg _ (by simp; exact hne),
          List.find?_cons_of_neg _ (by simp [hp]; exact hne)]
        exact ih
      · rw [if_neg hp]
        by_cases hq : p.1 = code
        · unfold getSlice
          rw [List.find?_cons_of_pos _ (by simp [hq]),
            List.find?_cons_of_pos _ (by simp [hq])]
        · unfold getSlice
          rw [List.find?_cons_of_neg _ (by simp [hq]),
            List.find?_cons_of_neg _ (by simp [hq])]
          exact ih
  have happ : ∀ ps : List (String × DF),
      getSlice (ps ++ [(c, df)]) code = getSlice ps code := by
    intro ps
    induction ps with
    | nil =>
      rw [List.nil_append]
      unfold getSlice
      rw [List.find?_cons_of_neg _ (by simp; exact hne)]
    | cons p ps ih =>
      rw [List.cons_append]
      by_cases hq : p.1 = code
      · unfold getSlice
        rw [List.find?_cons_of_pos _ (by simp [hq]),
          List.find?_cons_of_pos _ (by simp [hq])]
      · unfold getSlice
        rw [List.find?_cons_of_neg _ (by simp [hq]),
          List.find?_cons_of_neg _ (by simp [hq])]
        exact ih
  unfold setSlice
  split
  · exact hmap cur
  · exact happ cur

/-- Keys absent from the data dictionary are untouched by the visibility
update. -/
theorem updateVisible_not_mem : ∀ (data cur : List (String × DF)) (t : Time)
    (code : String), code ∉ data.map Prod.fst →
    getSlice (updateVisible data cur t) code = getSlice cur code := by
  intro data
  induction data with
  | nil => intro cur t code _; rfl
  | cons p rest ih =>
    intro cur t code hnot
    rw [List.map_cons] at hnot
    have hne : p.1 ≠ code := fun hc => hnot (by rw [hc]; exact List.mem_cons_self _ _)
    have hrest : code ∉ rest.map Prod.fst := fun hc => hnot (List.mem_cons_of_mem _ hc)
    rcases p with ⟨c0, df0⟩
    simp only [updateVisible]
    cases hlast : lastIdxOf (df0.map Prod.fst) t with
    | some pos =>
      rw [ih _ t code hrest, getSlice_setSlice_ne cur c0 code _ hne]
    | none => exact ih cur t code hrest

/-- The visibility update: an instrument whose series contains the current
timestamp gets the slice up to one past the last occurrence; all other keys
keep their previous entry (data keys assumed distinct, as in a dict). -/
theorem updateVisible_spec : ∀ (data cur : List (String × DF)) (t : Time)
    (code : String) (df : DF), (data.map Prod.fst).Nodup →
    (code, df) ∈ data →
    (∀ pos, lastIdxOf (df.map Prod.fst) t = some pos →
      getSlice (updateVisible data cur t) code = some (df.take (pos + 1))) ∧
    (lastIdxOf (df.map Prod.fst) t = none →
      getSlice (updateVisible data cur t) code = getSlice cur code) := by
  intro data
  induction data with
  | nil => intro cur t code df _ hmem; cases hmem
  | cons p rest ih =>
    intro cur t code df hnodup hmem
    rw [List.map_cons] at hnodup
    have hnd : (rest.map Prod.fst).Nodup := (List.nodup_cons.mp hnodup).2
    have hhead : p.1 ∉ rest.map Prod.fst := (List.nodup_cons.mp hnodup).1
    rcases List.mem_cons.mp hmem with heq | hmem2
    · subst heq
      have hnotrest : code ∉ rest.map Prod.fst := by simpa using hhead
      constructor
      · intro pos hlast
        simp only [updateVisible, hlast]
        rw [updateVisible_not_mem rest _ t code hnotrest]
        exact getSlice_setSlice_self cur code (df.take (pos + 1))
      · intro hlast
        simp only [updateVisible, hlast]
        exact updateVisible_not_mem rest cur t code hnotrest
    · rcases p with ⟨c0, df0⟩
      have hne : c0 ≠ code := by
        intro hc
        subst hc
        exact hhead (List.mem_map.mpr ⟨(c0, df), hmem2, rfl⟩)
      have ihres := fun cur2 => ih cur2 t code df hnd hmem2
      constructor
      · intro pos hlast
        simp only [updateVisible]
        cases hl0 : lastIdxOf (df0.map Prod.fst) t with
        | some pos0 => exact (ihres _).1 pos hlast
        | none => exact (ihres _).1 pos hlast
      · intro hlast
        simp only [updateVisible]
        cases hl0 : lastIdxOf (df0.map Prod.fst) t with
        | some pos0 =>
          rw [(ihres _).2 hlast, getSlice_setSlice_ne cur c0 code _ hne]
        | none => exact (ihres _).2 hlast

/-- Case split on the visibility update without a distinct-key assumption:
every visible slice is either a fresh cut of some instrument series at the
current timestamp, or carried over unchanged. -/
theorem updateVisible_cases : ∀ (data cur : List (String × DF)) (t : Time)
    (code : String),
    (∃ df pos, (code, df) ∈ data ∧ lastIdxOf (df.map Prod.fst) t = some pos ∧
      getSlice (updateVisible data cur t) code = some (df.take (pos + 1))) ∨
    getSlice (updateVisible data cur t) code = getSlice cur code := by
  intro data
  induction data with
  | nil => intro cur t code; exact Or.inr rfl
  | cons p rest ih =>
    intro cur t code
    rcases p with ⟨c0, df0⟩
    simp only [updateVisible]
    cases hl0 : lastIdxOf (df0.map Prod.fst) t with
    | some pos0 =>
      rcases ih (setSlice cur c0 (df0.take (pos0 + 1))) t code with
        ⟨df, pos, hmem, hlast, hget⟩ | hright
      · exact Or.inl ⟨df, pos, List.mem_cons_of_mem _ hmem, hlast, hget⟩
      · by_cases hc : c0 = code
        · subst hc
          refine Or.inl ⟨df0, pos0, List.mem_cons_self _ _, hl0, ?_⟩
          rw [hright]
          exact getSlice_setSlice_self cur c0 (df0.take (pos0 + 1))
        · refine Or.inr ?_
          rw [hright]
          exact getSlice_setSlice_ne cur c0 code _ hc
    | none =>
      rcases ih cur t code with ⟨df, pos, hmem, hlast, hget⟩ | hright
      · exact Or.inl ⟨df, pos, List.mem_cons_of_mem _ hmem, hlast, hget⟩
      · exact Or.inr hright

/-- The time axis built by set_data is sorted. -/
theorem buildIndex_sorted (data : List (String × DF)) :
    List.Sorted (· ≤ ·) (buildIndex data) :=
  List.sorted_insertionSort (· ≤ ·) _

/-- getD is monotone on a sorted list within bounds. -/
theorem getD_mono_sorted (l : List Time) (hs : List.Sorted (· ≤ ·) l)
    (i j : Nat) (hij : i ≤ j) (hj : j < l.length) :
    l.getD i 0 ≤ l.getD j 0 := by
  have hi : i < l.length := lt_of_le_of_lt hij hj
  rw [List.getD_eq_getElem?_getD, List.getD_eq_getElem?_getD,
    List.getElem?_eq_getElem hi, List.getElem?_eq_getElem hj]
  rcases Nat.lt_or_ge i j with hlt | hge
  · exact List.Sorted.rel_get_of_lt hs hlt
  · have : i = j := le_antisymm hij hge
    subst this
    exact le_refl _

/-- Every row of the data visible during a step is bounded by some axis entry
at or before the cursor, provided the instrument series are sorted and the
carried-over slices already satisfied the bound. -/
theorem visBound_vis {B R : Type} (st : BtState B R) (hsd : SortedData st.data)
    (hvb : VisBound st) :
    ∀ code slice r, getSlice (visibleDuring st) code = some slice → r ∈ slice →
      ∃ j, j ≤ st.stepIndex ∧ r.1 ≤ st.index.getD j 0 := by
  intro code slice r hget hr
  rcases updateVisible_cases st.data st.currentData
      (st.index.getD st.stepIndex 0) code with ⟨df, pos, hmem, hlast, hget2⟩ | hsame
  · unfold visibleDuring at hget
    rw [hget2] at hget
    injection hget with hsl
    subst hsl
    exact ⟨st.stepIndex, le_refl _,
      take_le_bound df _ pos (hsd code df hmem) hlast r hr⟩
  · unfold visibleDuring at hget
    rw [hsame] at hget
    exact hvb code slice r hget hr

/-- One step preserves the visibility bound. -/
theorem visBound_step {B R : Type} (bn : BrokerNext B) (f : Option (Strat B))
    (st : BtState B R) (hsd : SortedData st.data) (hvb : VisBound st) :
    VisBound (step bn f st).1 := by
  rcases step_cases bn f st with ⟨_, h⟩ | ⟨_, _, h⟩ | ⟨_, _, _, h⟩ |
    ⟨_, _, _, hsub⟩
  · rw [h]; exact hvb
  · rw [h]; exact hvb
  · rw [h]
    intro code slice r hget hr
    exact hvb code slice r hget hr
  · rcases hsub with ⟨g, e, hf, hg, h⟩ | ⟨b0, e, h, hbn⟩ | ⟨b0, b1, h, hbn⟩ <;>
      rw [h] <;> intro code slice r hget hr
    · obtain ⟨j, hj, hb⟩ := visBound_vis st hsd hvb code slice r hget hr
      exact ⟨j, hj, hb⟩
    · obtain ⟨j, hj, hb⟩ := visBound_vis st hsd hvb code slice r hget hr
      exact ⟨j, hj, hb⟩
    · obtain ⟨j, hj, hb⟩ := visBound_vis st hsd hvb code slice r hget hr
      exact ⟨j, Nat.le_succ_of_le hj, hb⟩

/-- Iterated stepping preserves the data dictionary and the time axis. -/
theorem stepN_preserves {B R : Type} (bn : BrokerNext B) (f : Option (Strat B)) :
    ∀ (n : Nat) (st : BtState B R),
      (stepN bn f n st).data = st.data ∧ (stepN bn f n st).index = st.index := by
  intro n
  induction n with
  | zero => exact fun st => ⟨rfl, rfl⟩
  | succ n ih =>
    intro st
    have h := step_preserves bn f st
    simp only [stepN]
    exact ⟨(ih _).1.trans h.1, (ih _).2.trans h.2.1⟩

/-- Iterated stepping preserves the visibility bound. -/
theorem stepN_visBound {B R : Type} (bn : BrokerNext B) (f : Option (Strat B)) :
    ∀ (n : Nat) (st : BtState B R), SortedData st.data → VisBound st →
      VisBound (stepN bn f n st) := by
  intro n
  induction n with
  | zero => exact fun st _ hvb => hvb
  | succ n ih =>
    intro st hsd hvb
    simp only [stepN]
    have hdata := (step_preserves bn f st).1
    exact ih _ (by rw [hdata]; exact hsd) (visBound_step bn f st hsd hvb)

/-! ### Claim theorems -/

/-- The volume defaulting keeps the number of rows. -/
theorem volumize_length (raw : RawDF) : (volumize raw).length = raw.rows.length := by
  unfold volumize; split <;> simp

/-- The volume defaulting keeps the index. -/
theorem volumize_map_fst (raw : RawDF) :
    (volumize raw).map Prod.fst = raw.rows.map Prod.fst := by
  unfold volumize; split
  · rfl
  · rw [List.map_map]; rfl

/-- The volume defaulting does not touch the OHLC cells. -/
theorem hasNaN_volumize (raw : RawDF) :
    hasNaNOHLC (volumize raw) = hasNaNOHLC raw.rows := by
  unfold volumize hasNaNOHLC; split
  · rfl
  · rw [List.any_map]; rfl

/-- A pairwise rowLE list has a monotone index. -/
theorem monoTimes_of_pairwise :
    ∀ l : List (Time × Row), List.Pairwise rowLE l →
      monoTimes (l.map Prod.fst) = true := by
  intro l
  induction l with
  | nil => intro _; rfl
  | cons a t ih =>
    intro h
    cases t with
    | nil => rfl
    | cons p t2 =>
      have hab : a.1 ≤ p.1 := (List.pairwise_cons.mp h).1 p (by simp)
      have ht := (List.pairwise_cons.mp h).2
      have := ih ht
      simp only [List.map, monoTimes] at this ⊢
      simp [hab, this]

/-- C10: goto is idempotent: when the cursor already equals the clamped
target, goto performs no reset and no steps and returns the state unchanged;
and after any goto(n) that returns normally, an immediately repeated goto(n)
is a no-op, leaving step index, broker state, visible data and cached
results identical. -/
theorem goto_idempotent {B R : Type} (bn : BrokerNext B) (f : Option (Strat B))
    (b0 : B) (n : Nat) (st : BtState B R) :
    (st.stepIndex = max 1 (min n st.index.length) →
      goto bn f b0 n st = (st, none)) ∧
    (∀ st1, goto bn f b0 n st = (st1, none) →
      goto bn f b0 n st1 = (st1, none)) := by
  constructor
  · intro hEq
    unfold goto
    rw [if_neg (by omega)]
    exact gotoLoop_exit bn f _ _ st (fun hcc => absurd hcc.1 (by omega))
  · intro st1 h
    unfold goto at h ⊢
    have hidx : st1.index = st.index := by
      by_cases hr : max 1 (min n st.index.length) < st.stepIndex
      · rw [if_pos hr] at h
        have hpres := gotoLoop_preserves bn f (max 1 (min n st.index.length))
          (max 1 (min n st.index.length) + 2) (reset b0 st)
        rw [h] at hpres
        exact hpres.2.1
      · rw [if_neg hr] at h
        have hpres := gotoLoop_preserves bn f (max 1 (min n st.index.length))
          (max 1 (min n st.index.length) + 2) st
        rw [h] at hpres
        exact hpres.2.1
    have hpost : st1.stepIndex ≤ max 1 (min n st.index.length) ∧
        (st1.stepIndex = max 1 (min n st.index.length) ∨ st1.isFinished = true) := by
      by_cases hr : max 1 (min n st.index.length) < st.stepIndex
      · rw [if_pos hr] at h
        exact gotoLoop_post bn f _ _ _ _ h (by simp [reset]) (by simp [reset])
      · rw [if_neg hr] at h
        exact gotoLoop_post bn f _ _ _ _ h (by omega) (by omega)
    rw [hidx]
    rw [if_neg (by omega)]
    apply gotoLoop_exit
    intro hcc
    rcases hpost.2 with heq | hfin
    · exact absurd hcc.1 (by omega)
    · rw [hfin] at hcc
      exact Bool.noConfusion hcc.2

/-- C3: goto clamps its target to the range 1..len(index); and with a
never-raising broker, from a started unfinished state, goto(a) followed by
goto(b) with 1 ≤ b < a ≤ len(index) performs a full reset and steps forward,
leaving the cursor exactly at b, with no propagated exception, in a state
equal to reset() followed by goto(b) — goto backward is reset plus goto
forward. -/
theorem goto_backward_equiv {B R : Type} (bn : BrokerNext B) (b0 : B)
    (st : BtState B R) (a b : Nat) (hbn : BnTotal bn)
    (hS : st.isStarted = true) (hF : st.isFinished = false)
    (hb : 1 ≤ b) (hba : b < a) (ha : a ≤ st.index.length) :
    (∀ m (g : Option (Strat B)),
      goto bn g b0 m st = goto bn g b0 (max 1 (min m st.index.length)) st) ∧
    goto bn none b0 b (goto bn none b0 a st).1 = goto bn none b0 b (reset b0 st) ∧
    (goto bn none b0 b (goto bn none b0 a st).1).1.stepIndex = b ∧
    (goto bn none b0 b (goto bn none b0 a st).1).2 = none := by
  have hclampa : max 1 (min a st.index.length) = a := by omega
  have hst0 : ∃ st0 : BtState B R,
      (if max 1 (min a st.index.length) < st.stepIndex then reset b0 st else st) = st0 ∧
      st0.isStarted = true ∧ st0.isFinished = false ∧ st0.stepIndex ≤ a ∧
      st0.index = st.index ∧ st0.data = st.data := by
    by_cases hr : max 1 (min a st.index.length) < st.stepIndex
    · refine ⟨reset b0 st, if_pos hr, ?_, rfl, ?_, rfl, rfl⟩
      · simp [reset, hS]
      · simp [reset]
    · exact ⟨st, if_neg hr, hS, hF, by omega, rfl, rfl⟩
  obtain ⟨st0, hif, h0S, h0F, h0le, h0idx, h0data⟩ := hst0
  rw [hclampa] at hif
  have hgotoA : goto bn none b0 a st = gotoLoop bn none a (a + 2) st0 := by
    unfold goto
    rw [hclampa, hif]
  have hreach := gotoLoop_reach hbn a (a + 2) st0 h0S h0le
    (by rw [h0idx]; exact ha) (Or.inr h0F) (by omega)
  have hApres := gotoLoop_preserves bn none a (a + 2) st0
  have hAdata : (goto bn none b0 a st).1.data = st.data := by
    rw [hgotoA, hApres.1, h0data]
  have hAidx : (goto bn none b0 a st).1.index = st.index := by
    rw [hgotoA, hApres.2.1, h0idx]
  have hAS : (goto bn none b0 a st).1.isStarted = true := by
    rw [hgotoA, hApres.2.2, h0S]
  have hAstep : (goto bn none b0 a st).1.stepIndex = a := by
    rw [hgotoA]; exact hreach.2
  obtain ⟨stA, hstA⟩ : ∃ x, (goto bn none b0 a st).1 = x := ⟨_, rfl⟩
  rw [hstA] at hAdata hAidx hAS hAstep
  have hLHS : goto bn none b0 b stA = gotoLoop bn none b (b + 2) (reset b0 stA) := by
    unfold goto
    rw [hAidx, show max 1 (min b st.index.length) = b from by omega,
      if_pos (by omega)]
  have hreset : reset b0 stA = reset b0 st := by
    unfold reset
    rw [hAdata, hAidx, hAS, hS]
  have hRHS : goto bn none b0 b (reset b0 st) = gotoLoop bn none b (b + 2) (reset b0 st) := by
    unfold goto
    rw [show (reset b0 st).index = st.index from rfl,
      show max 1 (min b st.index.length) = b from by omega,
      if_neg (by simp [reset])]
  have hreachB := gotoLoop_reach hbn b (b + 2) (reset b0 st)
    (by simp [reset, hS]) (by simp [reset]) (by simp [reset]; omega)
    (Or.inr rfl) (by omega)
  refine ⟨?_, ?_, ?_, ?_⟩
  · intro m g
    unfold goto
    rw [show max 1 (min (max 1 (min m st.index.length)) st.index.length) =
      max 1 (min m st.index.length) from by omega]
  · rw [hstA, hLHS, hreset, hRHS]
  · rw [hstA, hLHS, hreset]; exact hreachB.2
  · rw [hstA, hLHS, hreset]; exact hreachB.1

/-- Witness for C3 at a concrete three-bar run: goto(3) then goto(2) lands
on cursor 2 in exactly the reset-then-goto(2) state. -/
theorem goto_backward_equiv_witness :
    goto (R := Unit) (fun x _ _ => .ok x) none 0 2
        ((goto (R := Unit) (fun x _ _ => .ok x) none 0 3
          (start 0 [("A", [(0, ⟨some 1, some 1, some 1, some 1, none⟩),
            (1, ⟨some 2, some 2, some 2, some 2, none⟩),
            (2, ⟨some 3, some 3, some 3, some 3, none⟩)])])).1) =
      goto (R := Unit) (fun x _ _ => .ok x) none 0 2
        (reset 0 (start 0 [("A", [(0, ⟨some 1, some 1, some 1, some 1, none⟩),
          (1, ⟨some 2, some 2, some 2, some 2, none⟩),
          (2, ⟨some 3, some 3, some 3, some 3, none⟩)])])) ∧
    (goto (R := Unit) (fun x _ _ => .ok x) none 0 2
        ((goto (R := Unit) (fun x _ _ => .ok x) none 0 3
          (start 0 [("A", [(0, ⟨some 1, some 1, some 1, some 1, none⟩),
            (1, ⟨some 2, some 2, some 2, some 2, none⟩),
            (2, ⟨some 3, some 3, some 3, some 3, none⟩)])])).1)).1.stepIndex = 2 := by
  have h := goto_backward_equiv (R := Unit) (fun x _ _ => .ok x) 0
    (start 0 [("A", [(0, ⟨some 1, some 1, some 1, some 1, none⟩),
      (1, ⟨some 2, some 2, some 2, some 2, none⟩),
      (2, ⟨some 3, some 3, some 3, some 3, none⟩)])]) 3 2
    (fun x t d => ⟨x, rfl⟩) rfl rfl (by omega) (by omega) (by decide)
  exact ⟨h.2.1, h.2.2.1⟩

/-- Witness for C10 at a concrete two-bar run: a repeated goto(1) is a
no-op. -/
theorem goto_idempotent_witness :
    goto (R := Unit) (fun b _ _ => .ok b) none 0 1
        ((goto (R := Unit) (fun b _ _ => .ok b) none 0 1
          (start 0 [("A", [(0, ⟨some 1, some 1, some 1, some 1, none⟩),
            (3, ⟨some 2, some 2, some 2, some 2, none⟩)])])).1) =
      ((goto (R := Unit) (fun b _ _ => .ok b) none 0 1
          (start 0 [("A", [(0, ⟨some 1, some 1, some 1, some 1, none⟩),
            (3, ⟨some 2, some 2, some 2, some 2, none⟩)])])).1, none) :=
  (goto_idempotent (fun b _ _ => .ok b) none 0 1
      (start 0 [("A", [(0, ⟨some 1, some 1, some 1, some 1, none⟩),
        (3, ⟨some 2, some 2, some 2, some 2, none⟩)])])).2
    _ (by decide)

/-- C7: step() raises RuntimeError exactly when the backtest has not been
started (and an unstarted step leaves the state untouched, for any installed
strategy); when the backtest is already finished, step() returns False
immediately without mutating any state — no strategy call, no broker
processing, no cursor advance. -/
theorem step_preconditions {B R : Type} (bn : BrokerNext B) (st : BtState B R) :
    ((step (R := R) bn none st).2 = .exn .runtimeError ↔ st.isStarted = false) ∧
    (∀ f, st.isStarted = false → step (R := R) bn f st = (st, .exn .runtimeError)) ∧
    (∀ f, st.isStarted = true → st.isFinished = true →
      step (R := R) bn f st = (st, .ret false)) := by
  refine ⟨?_, ?_, ?_⟩
  · unfold step
    cases hS : st.isStarted with
    | false => simp
    | true =>
      simp only [Bool.true_eq_false, if_false]
      cases hF : st.isFinished with
      | true => simp
      | false =>
        simp only [Bool.false_eq_true, if_false]
        by_cases hI : st.index.length ≤ st.stepIndex
        · simp [hI]
        · simp only [hI, if_false]
          cases hbn : bn st.broker (st.index.getD st.stepIndex 0) (visibleDuring st) <;>
            simp [visibleDuring, hbn]
  · intro f hS
    unfold step
    simp [hS]
  · intro f hS hF
    unfold step
    simp [hS, hF]

/-- Witness for C7 at a concrete state: an unstarted backtest raises
RuntimeError and a finished backtest returns False without mutation. -/
theorem step_preconditions_witness :
    (step (R := Unit) (fun b _ _ => .ok b) none
        ({ data := [], index := [], stepIndex := 0, isStarted := false,
           isFinished := false, currentData := [], broker := (), results := none }) =
      (({ data := [], index := [], stepIndex := 0, isStarted := false,
          isFinished := false, currentData := [], broker := (), results := none }),
        .exn .runtimeError)) ∧
    (step (R := Unit) (fun b _ _ => .ok b) none
        ({ data := [], index := [], stepIndex := 0, isStarted := true,
           isFinished := true, currentData := [], broker := (), results := none }) =
      (({ data := [], index := [], stepIndex := 0, isStarted := true,
          isFinished := true, currentData := [], broker := (), results := none }),
        .ret false)) :=
  ⟨(step_preconditions (fun b _ _ => .ok b) _).2.1 none rfl,
   (step_preconditions (fun b _ _ => .ok b) _).2.2 none rfl rfl⟩

/-- C2: when broker.next raises during step(), the exception is swallowed
(step returns normally with False rather than re-raising), the run is marked
finished, and the step cursor is not advanced; the state kept is exactly the
pre-failure state with the visible data of the failing bar and the broker
state as the strategy left it. -/
theorem step_broker_exception {B R : Type} (bn : BrokerNext B) (f : Strat B)
    (st : BtState B R) (b0 : B) (e : PyErr)
    (hS : st.isStarted = true) (hF : st.isFinished = false)
    (hI : st.stepIndex < st.index.length)
    (hstrat : f (visibleDuring st) st.broker = .ok b0)
    (hbn : bn b0 (st.index.getD st.stepIndex 0) (visibleDuring st) = .error e) :
    step bn (some f) st =
      ({ st with currentData := visibleDuring st, broker := b0, isFinished := true },
        .ret false) := by
  have hbn2 : bn b0 (st.index[st.stepIndex]?.getD 0) (visibleDuring st) = .error e := by
    rw [← List.getD_eq_getElem?_getD]; exact hbn
  unfold step
  simp [hS, hF, Nat.not_le.mpr hI, hstrat, hbn2]

/-- Witness for C2: a concrete one-bar backtest whose broker raises on its
only bar ends finished, cursor still at 0, with step returning False. -/
theorem step_broker_exception_witness :
    step (R := Unit) (fun _ _ _ => .error (.other 7))
        (some (fun _ b => .ok b)) (start 0 [("A", [(0, ⟨some 1, some 1, some 1, some 1, none⟩)])]) =
      ({ (start 0 [("A", [(0, ⟨some 1, some 1, some 1, some 1, none⟩)])] : BtState Nat Unit) with
          currentData := visibleDuring (start (R := Unit) 0 [("A", [(0, ⟨some 1, some 1, some 1, some 1, none⟩)])]),
          broker := 0, isFinished := true }, .ret false) :=
  step_broker_exception (fun _ _ _ => .error (.other 7)) (fun _ b => .ok b) _ 0 (.other 7)
    rfl rfl (by decide) rfl rfl

/-- C9: an exception raised by the user strategy callback during step() is
not caught: it propagates to the caller, the cursor is not advanced, the run
is not marked finished, the broker state is untouched, and broker.next is
never invoked for that bar (the result does not depend on the broker's
per-bar processing at all). -/
theorem step_strategy_exception {B R : Type} (bn bn2 : BrokerNext B)
    (f : Strat B) (st : BtState B R) (e : PyErr)
    (hS : st.isStarted = true) (hF : st.isFinished = false)
    (hI : st.stepIndex < st.index.length)
    (hstrat : f (visibleDuring st) st.broker = .error e) :
    step bn (some f) st = ({ st with currentData := visibleDuring st }, .exn e) ∧
    step bn (some f) st = step bn2 (some f) st := by
  constructor
  · unfold step
    simp [hS, hF, Nat.not_le.mpr hI, hstrat]
  · unfold step
    simp [hS, hF, Nat.not_le.mpr hI, hstrat]

/-- Witness for C9: a concrete strategy raising at the first bar propagates
out of step with the cursor still at 0 and the run not finished. -/
theorem step_strategy_exception_witness :
    step (R := Unit) (fun b _ _ => .ok b)
        (some (fun _ _ => .error (.other 3)))
        (start 0 [("A", [(0, ⟨some 1, some 1, some 1, some 1, none⟩)])]) =
      ({ (start 0 [("A", [(0, ⟨some 1, some 1, some 1, some 1, none⟩)])] : BtState Nat Unit) with
          currentData := visibleDuring (start (R := Unit) 0 [("A", [(0, ⟨some 1, some 1, some 1, some 1, none⟩)])]) },
        .exn (.other 3)) :=
  (step_strategy_exception (fun b _ _ => .ok b) (fun b _ _ => .ok b)
    (fun _ _ => .error (.other 3)) _ (.other 3) rfl rfl (by decide) rfl).1

/-- C4: finalize() is idempotent: with no cached result, the first call
computes the report, stores it in the cache and returns it; any subsequent
call — even with a different (hence never re-run) computation — returns the
identical cached report and leaves the state unchanged. -/
theorem finalize_idempotent {B R : Type} (compute compute2 : BtState B R → B × R)
    (st : BtState B R) (hS : st.isStarted = true) :
    (st.results = none →
      (finalize compute st).1.results = some (compute st).2 ∧
      (finalize compute st).2 = .ok (compute st).2) ∧
    finalize compute2 (finalize compute st).1 =
      ((finalize compute st).1, (finalize compute st).2) := by
  cases hR : st.results with
  | some r =>
    constructor
    · intro h; exact Option.noConfusion h
    · unfold finalize
      simp [hR]
  | none =>
    constructor
    · intro _
      unfold finalize
      simp [hR, hS]
    · unfold finalize
      simp [hR, hS]

/-- Witness for C4 at a concrete started state: two finalize calls with
different computations agree and return the cached report. -/
theorem finalize_idempotent_witness :
    finalize (fun _ => (1, 42))
        (finalize (fun _ => (0, 5)) (start (R := Nat) 0 [])).1 =
      ((finalize (fun _ => (0, 5)) (start (R := Nat) 0 [])).1,
        (finalize (fun _ => (0, 5)) (start (R := Nat) 0 [])).2) :=
  (finalize_idempotent (fun _ => (0, 5)) (fun _ => (1, 42)) (start 0 []) rfl).2

/-- C5: buy and sell raise RuntimeError when the controller is not started;
with code omitted they default to the sole instrument when exactly one is
present and raise ValueError when several are; with size omitted they
forward the all-available-capital sentinel (buy positively, sell negated);
and sell forwards to the broker exactly the buy request with negated size. -/
theorem buy_sell_contract {B R : Type} (st : BtState B R) :
    (st.isStarted = false → ∀ code? size? l s2 sl2 tp2 tag,
      buy st code? size? l s2 sl2 tp2 tag = .error .runtimeError ∧
      sell st code? size? l s2 sl2 tp2 tag = .error .runtimeError) ∧
    (st.isStarted = true → ∀ c df size? l s2 sl2 tp2 tag, st.data = [(c, df)] →
      buy st none size? l s2 sl2 tp2 tag =
        .ok { code := c, size := size?.getD sizeDefault, limit := l, stop := s2,
              sl := sl2, tp := tp2, tag := tag } ∧
      sell st none size? l s2 sl2 tp2 tag =
        .ok { code := c, size := -(size?.getD sizeDefault), limit := l, stop := s2,
              sl := sl2, tp := tp2, tag := tag }) ∧
    (st.isStarted = true → 2 ≤ st.data.length → ∀ size? l s2 sl2 tp2 tag,
      (∃ m, buy st none size? l s2 sl2 tp2 tag = .error (.valueError m)) ∧
      (∃ m, sell st none size? l s2 sl2 tp2 tag = .error (.valueError m))) ∧
    (st.isStarted = true → ∀ c l s2 sl2 tp2 tag,
      buy st (some c) none l s2 sl2 tp2 tag =
        .ok { code := c, size := sizeDefault, limit := l, stop := s2,
              sl := sl2, tp := tp2, tag := tag } ∧
      sell st (some c) none l s2 sl2 tp2 tag =
        .ok { code := c, size := -sizeDefault, limit := l, stop := s2,
              sl := sl2, tp := tp2, tag := tag }) ∧
    (∀ code? size? l s2 sl2 tp2 tag,
      sell st code? size? l s2 sl2 tp2 tag =
        (buy st code? size? l s2 sl2 tp2 tag).map
          (fun r => { r with size := -r.size })) := by
  refine ⟨?_, ?_, ?_, ?_, ?_⟩
  · intro hS code? size? l s2 sl2 tp2 tag
    constructor <;> simp [buy, sell, hS]
  · intro hS c df size? l s2 sl2 tp2 tag hData
    constructor <;> simp [buy, sell, resolveCode, hS, hData]
  · intro hS hLen size? l s2 sl2 tp2 tag
    have hne : st.data.length ≠ 1 := by omega
    constructor <;>
      exact ⟨"codeRequiredWithMultipleInstruments",
        by simp [buy, sell, resolveCode, hS, hne]⟩
  · intro hS c l s2 sl2 tp2 tag
    constructor <;> simp [buy, sell, resolveCode, hS]
  · intro code? size? l s2 sl2 tp2 tag
    cases hS : st.isStarted with
    | false => simp [buy, sell, hS, Except.map]
    | true =>
      cases hrc : resolveCode st.data code? <;>
        simp [buy, sell, hS, hrc, Except.map]

/-- Witness for C5 at concrete states: validation, defaulting and negation
observed on explicit inputs. -/
theorem buy_sell_contract_witness :
    buy (start (B := Unit) (R := Unit) () [("A", [(0, ⟨some 1, some 1, some 1, some 1, none⟩)])])
        none none none none none none none =
      .ok { code := "A", size := sizeDefault, limit := none, stop := none,
            sl := none, tp := none, tag := none } ∧
    sell (start (B := Unit) (R := Unit) () [("A", [(0, ⟨some 1, some 1, some 1, some 1, none⟩)])])
        none none none none none none none =
      .ok { code := "A", size := -sizeDefault, limit := none, stop := none,
            sl := none, tp := none, tag := none } := by
  have h := (buy_sell_contract
      (start (B := Unit) (R := Unit) () [("A", [(0, ⟨some 1, some 1, some 1, some 1, none⟩)])])).2.1
    rfl "A" [(0, ⟨some 1, some 1, some 1, some 1, none⟩)] none none none none none none rfl
  simpa using h

/-- C8: with the emit_all dispatcher installed, one bar's broker fill pass
calls every registered callback once per opening fill, in registration order
(add_trade_callback appends, and emitAll walks the list front to back), with
event BUY for positive sizes and SELL otherwise; partial and full closes
trigger no callback at all. -/
theorem trade_callbacks_dispatch (cbs : List Nat) (fills : List Fill) :
    brokerFillPass (emitAll cbs) fills =
      (fills.filter (fun f => decide (f.kind = FillKind.opening))).flatMap
        (fun f => cbs.map (fun cb =>
          (cb, (if 0 < f.trade.size then EventType.BUY else EventType.SELL),
            f.trade))) ∧
    (∀ cb e t, emitAll (add_trade_callback cbs cb) e t =
      emitAll cbs e t ++ [(cb, e, t)]) ∧
    ((∀ f ∈ fills, f.kind ≠ FillKind.opening) →
      brokerFillPass (emitAll cbs) fills = []) := by
  refine ⟨?_, ?_, ?_⟩
  · induction fills with
    | nil => simp [brokerFillPass]
    | cons f rest ih =>
      cases hk : f.kind <;>
        simp [brokerFillPass, hk, emitAll, List.filter_cons, ih]
  · intro cb e t
    simp [emitAll, add_trade_callback]
  · intro hall
    induction fills with
    | nil => simp [brokerFillPass]
    | cons f rest ih =>
      have hf := hall f (by simp)
      cases hk : f.kind with
      | opening => exact absurd hk hf
      | closePart =>
        simp only [brokerFillPass, hk]
        exact ih (fun g hg => hall g (by simp [hg]))
      | closeFull =>
        simp only [brokerFillPass, hk]
        exact ih (fun g hg => hall g (by simp [hg]))

/-- Witness for C8: two callbacks, one opening buy fill, one opening sell
fill and one full close produce exactly the four in-order calls. -/
theorem trade_callbacks_dispatch_witness :
    brokerFillPass (emitAll [10, 20])
        [⟨.opening, ⟨"A", 2⟩⟩, ⟨.closeFull, ⟨"A", -2⟩⟩, ⟨.opening, ⟨"B", -1⟩⟩] =
      [(10, .BUY, ⟨"A", 2⟩), (20, .BUY, ⟨"A", 2⟩),
        (10, .SELL, ⟨"B", -1⟩), (20, .SELL, ⟨"B", -1⟩)] ∧
    brokerFillPass (emitAll [10, 20]) [⟨.closePart, ⟨"A", 1⟩⟩] = [] := by
  constructor
  · have h := (trade_callbacks_dispatch [10, 20]
      [⟨.opening, ⟨"A", 2⟩⟩, ⟨.closeFull, ⟨"A", -2⟩⟩, ⟨.opening, ⟨"B", -1⟩⟩]).1
    rw [h]
    decide
  · exact (trade_callbacks_dispatch [10, 20] [⟨.closePart, ⟨"A", 1⟩⟩]).2.2
      (by decide)

/-- C6: input-data validation: a missing Open/High/Low/Close column, a NaN
anywhere in the OHLC columns, or an empty frame makes validation raise a
ValueError immediately (never silently coerced); any accepted frame has a
monotone index and is a permutation of the (Volume-defaulted) input, with a
missing Volume column defaulted to an all-NaN column; and a well-formed but
unsorted frame is accepted — sorted — with an unsorted-index warning rather
than an error. -/
theorem validate_contract (raw : RawDF) (code : String) :
    ((raw.rows = [] ∨
      (raw.hasOpen && raw.hasHigh && raw.hasLow && raw.hasClose) = false ∨
      hasNaNOHLC raw.rows = true) →
      ∃ m, validate_and_prepare_df raw code = .error (.valueError m)) ∧
    (∀ df ws, validate_and_prepare_df raw code = .ok (df, ws) →
      monoTimes (df.map Prod.fst) = true ∧ df.Perm (volumize raw) ∧
      (raw.hasVolume = false → ∀ r ∈ df, r.2.volumeV = none)) ∧
    ((raw.hasOpen && raw.hasHigh && raw.hasLow && raw.hasClose) = true →
      raw.rows ≠ [] → hasNaNOHLC raw.rows = false →
      ∃ df ws, validate_and_prepare_df raw code = .ok (df, ws) ∧
        (monoTimes (raw.rows.map Prod.fst) = false →
          Warn.unsortedIndex code ∈ ws)) := by
  refine ⟨?_, ?_, ?_⟩
  · intro hbad
    by_cases h1 : (volumize raw).length = 0
    · exact ⟨_, by unfold validate_and_prepare_df; rw [if_pos h1]⟩
    · by_cases h2 : (raw.hasOpen && raw.hasHigh && raw.hasLow && raw.hasClose) = true
      · have h3 : hasNaNOHLC (volumize raw) = true := by
          rw [hasNaN_volumize]
          rcases hbad with h | h | h
          · exact absurd (by rw [volumize_length, h]; rfl) h1
          · rw [h2] at h; cases h
          · exact h
        refine ⟨"Some OHLC values are missing (NaN)", ?_⟩
        unfold validate_and_prepare_df
        rw [if_neg h1, if_neg (fun hcon => hcon h2), if_pos h3]
      · refine ⟨"data[" ++ code ++ "] must be a pandas.DataFrame with columns", ?_⟩
        unfold validate_and_prepare_df
        rw [if_neg h1, if_pos h2]
  · intro df ws hok
    unfold validate_and_prepare_df at hok
    split_ifs at hok with h1 h2 h3 h4
    · injection hok with h
      rw [Prod.mk.injEq] at h
      obtain ⟨h5, _⟩ := h
      subst h5
      refine ⟨h4, List.Perm.refl _, ?_⟩
      intro hv r hr
      unfold volumize at hr
      rw [hv] at hr
      simp only [Bool.false_eq_true, if_false] at hr
      obtain ⟨r0, _, hr0⟩ := List.mem_map.mp hr
      rw [← hr0]
    · injection hok with h
      rw [Prod.mk.injEq] at h
      obtain ⟨h5, _⟩ := h
      subst h5
      have hsorted : List.Pairwise rowLE (List.insertionSort rowLE (volumize raw)) :=
        List.sorted_insertionSort rowLE (volumize raw)
      refine ⟨monoTimes_of_pairwise _ hsorted, List.perm_insertionSort rowLE _, ?_⟩
      intro hv r hr
      have hr2 : r ∈ volumize raw :=
        (List.perm_insertionSort rowLE (volumize raw)).mem_iff.mp hr
      unfold volumize at hr2
      rw [hv] at hr2
      simp only [Bool.false_eq_true, if_false] at hr2
      obtain ⟨r0, _, hr0⟩ := List.mem_map.mp hr2
      rw [← hr0]
  · intro hcols hne hnan
    have h1 : ¬((volumize raw).length = 0) := by
      rw [volumize_length]
      intro h
      exact hne (List.length_eq_zero.mp h)
    have h3 : ¬(hasNaNOHLC (volumize raw) = true) := by
      rw [hasNaN_volumize, hnan]; exact Bool.noConfusion
    by_cases hm : monoTimes ((volumize raw).map Prod.fst) = true
    · refine ⟨volumize raw, dtWarns raw code, ?_, ?_⟩
      · unfold validate_and_prepare_df
        rw [if_neg h1, if_neg (fun hcon => hcon hcols), if_neg h3, if_pos hm]
      · intro hfalse
        rw [volumize_map_fst, hfalse] at hm
        cases hm
    · refine ⟨List.insertionSort rowLE (volumize raw),
        Warn.unsortedIndex code :: dtWarns raw code, ?_, fun _ => by simp⟩
      unfold validate_and_prepare_df
      rw [if_neg h1, if_neg (fun hcon => hcon hcols), if_neg h3, if_neg hm]

/-- Witness for C6 at concrete frames: a frame missing its Close column is
rejected, and a well-formed unsorted two-row frame is accepted with an
unsorted-index warning. -/
theorem validate_contract_witness :
    (∃ m, validate_and_prepare_df
        ⟨true, true, true, false, true, true,
          [(0, ⟨some 1, some 1, some 1, some 1, some 0⟩)]⟩ "A" =
      .error (.valueError m)) ∧
    (∃ df ws, validate_and_prepare_df
        ⟨true, true, true, true, true, true,
          [(5, ⟨some 1, some 1, some 1, some 1, some 0⟩),
            (2, ⟨some 2, some 2, some 2, some 2, some 0⟩)]⟩ "A" =
      .ok (df, ws) ∧
      (monoTimes ([(5, (⟨some 1, some 1, some 1, some 1, some 0⟩ : Row)),
          (2, ⟨some 2, some 2, some 2, some 2, some 0⟩)].map Prod.fst) = false →
        Warn.unsortedIndex "A" ∈ ws)) :=
  ⟨(validate_contract
      ⟨true, true, true, false, true, true,
        [(0, ⟨some 1, some 1, some 1, some 1, some 0⟩)]⟩ "A").1
    (Or.inr (Or.inl (by decide))),
   (validate_contract
      ⟨true, true, true, true, true, true,
        [(5, ⟨some 1, some 1, some 1, some 1, some 0⟩),
          (2, ⟨some 2, some 2, some 2, some 2, some 0⟩)]⟩ "A").2.2
    (by decide) (by decide) (by decide)⟩

/-- C1 (amended): per step, an instrument whose (sorted) series contains the
current timestamp has its visible slice set to exactly the rows with
timestamp up to and including the current axis entry, and an instrument
without a bar at that timestamp keeps its previous slice; and for every run
begun at start() — whose visible-data dictionary starts empty — and advanced
only by step(), the data visible to the strategy during a step never
contains a row with timestamp strictly greater than the current bar's
timestamp. (The unrestricted claim fails after reset(), which seeds each
instrument's slice with its first row: see the counterexample.) -/
theorem step_no_lookahead {B R : Type} :
    (∀ (st : BtState B R) (code : String) (df : DF),
      (st.data.map Prod.fst).Nodup → (code, df) ∈ st.data →
      List.Sorted (· ≤ ·) (df.map Prod.fst) →
      (∀ pos, lastIdxOf (df.map Prod.fst) (st.index.getD st.stepIndex 0) = some pos →
        getSlice (visibleDuring st) code =
          some (df.filter (fun r => decide (r.1 ≤ st.index.getD st.stepIndex 0)))) ∧
      (lastIdxOf (df.map Prod.fst) (st.index.getD st.stepIndex 0) = none →
        getSlice (visibleDuring st) code = getSlice st.currentData code)) ∧
    (∀ (bn : BrokerNext B) (f : Option (Strat B)) (b0 : B)
      (data : List (String × DF)) (n : Nat) (code : String) (slice : DF)
      (r : Time × Row), SortedData data →
      getSlice (visibleDuring (stepN bn f n (start (R := R) b0 data))) code =
        some slice →
      r ∈ slice →
      (stepN bn f n (start (R := R) b0 data)).stepIndex <
        (stepN bn f n (start (R := R) b0 data)).index.length →
      r.1 ≤ (stepN bn f n (start (R := R) b0 data)).index.getD
        (stepN bn f n (start (R := R) b0 data)).stepIndex 0) := by
  constructor
  · intro st code df hnodup hmem hsorted
    have hspec := updateVisible_spec st.data st.currentData
      (st.index.getD st.stepIndex 0) code df hnodup hmem
    constructor
    · intro pos hlast
      have h1 := hspec.1 pos hlast
      rw [take_eq_filter_le df _ pos hsorted hlast] at h1
      exact h1
    · exact hspec.2
  · intro bn f b0 data n code slice r hsd hget hr hlt
    have hpres := stepN_preserves bn f n (start (R := R) b0 data)
    have hdata : (stepN bn f n (start (R := R) b0 data)).data = data := hpres.1
    have hidx : (stepN bn f n (start (R := R) b0 data)).index = buildIndex data :=
      hpres.2
    have hvb : VisBound (stepN bn f n (start (R := R) b0 data)) := by
      apply stepN_visBound bn f n (start (R := R) b0 data) hsd
      intro code2 slice2 r2 hget2 _
      cases hget2
    have hsd2 : SortedData (stepN bn f n (start (R := R) b0 data)).data := by
      rw [hdata]; exact hsd
    obtain ⟨j, hj, hb⟩ := visBound_vis _ hsd2 hvb code slice r hget hr
    have hsortedIdx : List.Sorted (· ≤ ·)
        (stepN bn f n (start (R := R) b0 data)).index := by
      rw [hidx]; exact buildIndex_sorted data
    exact le_trans hb (getD_mono_sorted _ hsortedIdx j _ hj hlt)

/-- Witness for C1 (amended slicing and bound) on a concrete two-instrument
run: after one step from start, at cursor 1 (timestamp 5), instrument B's
visible slice is its row at timestamp 5, which satisfies the bound. -/
theorem step_no_lookahead_witness :
    (5 : Nat) ≤ (stepN (R := Unit) (fun x _ _ => .ok x) none 1
        (start 0 [("A", [(0, ⟨some 1, some 1, some 1, some 1, none⟩),
          (5, ⟨some 2, some 2, some 2, some 2, none⟩)]),
          ("B", [(5, ⟨some 3, some 3, some 3, some 3, none⟩)])])).index.getD
      (stepN (R := Unit) (fun x _ _ => .ok x) none 1
        (start 0 [("A", [(0, ⟨some 1, some 1, some 1, some 1, none⟩),
          (5, ⟨some 2, some 2, some 2, some 2, none⟩)]),
          ("B", [(5, ⟨some 3, some 3, some 3, some 3, none⟩)])])).stepIndex 0 :=
  step_no_lookahead.2 (fun x _ _ => .ok x) none 0
    [("A", [(0, ⟨some 1, some 1, some 1, some 1, none⟩),
      (5, ⟨some 2, some 2, some 2, some 2, none⟩)]),
      ("B", [(5, ⟨some 3, some 3, some 3, some 3, none⟩)])] 1 "B"
    [(5, ⟨some 3, some 3, some 3, some 3, none⟩)]
    (5, ⟨some 3, some 3, some 3, some 3, none⟩)
    (by intro code df hmem; fin_cases hmem <;> simp)
    (by decide) (by decide) (by decide)

/-- Counterexample for C1 as stated: after reset() — reachable on any
started Backtest, and used internally by goto backward — the visible-data
dictionary is seeded with each instrument's first row, so during the next
step at cursor 0 (timestamp 0) instrument B, which has no bar at timestamp
0 and therefore keeps its previous slice, exposes its future row at
timestamp 5 > 0 to the strategy. -/
theorem step_no_lookahead_counterexample :
    (reset 0 (start (R := Unit) 0 [("A", [(0, ⟨some 1, some 1, some 1, some 1, none⟩)]),
      ("B", [(5, ⟨some 2, some 2, some 2, some 2, none⟩)])])).isStarted = true ∧
    (reset 0 (start (R := Unit) 0 [("A", [(0, ⟨some 1, some 1, some 1, some 1, none⟩)]),
      ("B", [(5, ⟨some 2, some 2, some 2, some 2, none⟩)])])).isFinished = false ∧
    (reset 0 (start (R := Unit) 0 [("A", [(0, ⟨some 1, some 1, some 1, some 1, none⟩)]),
      ("B", [(5, ⟨some 2, some 2, some 2, some 2, none⟩)])])).stepIndex = 0 ∧
    (reset 0 (start (R := Unit) 0 [("A", [(0, ⟨some 1, some 1, some 1, some 1, none⟩)]),
      ("B", [(5, ⟨some 2, some 2, some 2, some 2, none⟩)])])).index.getD 0 0 = 0 ∧
    lastIdxOf ([(5, (⟨some 2, some 2, some 2, some 2, none⟩ : Row))].map Prod.fst) 0 =
      none ∧
    getSlice (visibleDuring (reset 0 (start (R := Unit) 0
      [("A", [(0, ⟨some 1, some 1, some 1, some 1, none⟩)]),
        ("B", [(5, ⟨some 2, some 2, some 2, some 2, none⟩)])]))) "B" =
      some [(5, ⟨some 2, some 2, some 2, some 2, none⟩)] ∧
    (step (R := Unit) (fun x _ _ => .ok x) none
        (reset 0 (start (R := Unit) 0 [("A", [(0, ⟨some 1, some 1, some 1, some 1, none⟩)]),
          ("B", [(5, ⟨some 2, some 2, some 2, some 2, none⟩)])]))).1.currentData =
      visibleDuring (reset 0 (start (R := Unit) 0
        [("A", [(0, ⟨some 1, some 1, some 1, some 1, none⟩)]),
          ("B", [(5, ⟨some 2, some 2, some 2, some 2, none⟩)])])) ∧
    ¬((5 : Nat) ≤ 0) := by
  decide

end BackcastPro
